import Mathlib

/-!
Verification development for the ComDaAn log-extraction and aggregation
pipeline (`gitparsing.py`, `authorage.py`).

The Python source is shallowly embedded below.  Datetimes are modelled as
integers: epoch seconds in the `gitparsing` part (where dates are parsed
from strings and compared), and epoch days in the `authorage` part (where
only calendar-day resolution survives the weekly bucketing on line 49 of
`authorage.py`).  pandas missing values (NaN) are modelled as `Option`,
Python `set` as `Finset`, raised exceptions as `Except`/divergence of an
explicitly fuelled recursion.
-/

/-! ## Date parsing: `datetime.strptime(s, "%Y-%m-%d %H:%M:%S %z").astimezone(utc)`
(gitparsing.py line 164).  The parser below follows CPython's `_strptime`
for this fixed format: `%Y` is exactly four digits, `%m`/`%d`/`%H`/`%M`/`%S`
are one or two digits range-checked (with `datetime`'s own validation of
day-of-month and second), the literal separators must match, `%z` is
`±HHMM`, `±HH:MM` or `Z`, and no unconverted data may remain.  The result
is the UTC epoch-second timestamp (`astimezone(utc)` subtracts the offset).
-/

def digitVal (c : Char) : Nat := c.toNat - 48

/-- Parse exactly `k` digits (CPython `%Y` uses four). -/
def parseFixedDigits : Nat → List Char → Option (Nat × List Char)
  | 0, cs => some (0, cs)
  | k + 1, c :: cs =>
    if c.isDigit then
      match parseFixedDigits k cs with
      | some (n, rest) => some (digitVal c * 10 ^ k + n, rest)
      | none => none
    else none
  | _ + 1, [] => none

/-- Parse one or two digits, greedily, as CPython's regexes for
`%m`/`%d`/`%H`/`%M`/`%S` do when a literal separator follows. -/
def parseOneTwoDigits : List Char → Option (Nat × List Char)
  | c :: d :: cs =>
    if c.isDigit then
      if d.isDigit then some (digitVal c * 10 + digitVal d, cs)
      else some (digitVal c, d :: cs)
    else none
  | [c] => if c.isDigit then some (digitVal c, []) else none
  | [] => none

def expectChar (c : Char) : List Char → Option (List Char)
  | d :: cs => if d = c then some cs else none
  | [] => none

def isLeapYear (y : Nat) : Bool := y % 4 = 0 && (y % 100 ≠ 0 || y % 400 = 0)

def daysInMonth (y m : Nat) : Nat :=
  if m = 2 then (if isLeapYear y then 29 else 28)
  else if m = 4 || m = 6 || m = 9 || m = 11 then 30
  else 31

/-- Days from 1970-01-01 to the civil date `y-m-d` (proleptic Gregorian). -/
def daysFromCivil (y m d : Nat) : Int :=
  let yy : Int := if m ≤ 2 then (y : Int) - 1 else (y : Int)
  let era : Int := (if yy ≥ 0 then yy else yy - 399) / 400
  let yoe : Int := yy - era * 400
  let mp : Int := ((m : Int) + 9) % 12
  let doy : Int := (153 * mp + 2) / 5 + (d : Int) - 1
  let doe : Int := yoe * 365 + yoe / 4 - yoe / 100 + doy
  era * 146097 + doe - 719468

/-- Parse the `%z` field: `±HHMM`, `±HH:MM` or `Z`; returns the offset in
seconds.  (Fractional-second offsets, which git never emits for
`--date=iso`, are not modelled.) -/
def parseTzOffset : List Char → Option (Int × List Char)
  | 'Z' :: cs => some (0, cs)
  | c :: cs =>
    if c = '+' || c = '-' then
      match parseFixedDigits 2 cs with
      | some (hh, cs1) =>
        let cs2 := match cs1 with
          | ':' :: t => t
          | t => t
        match parseFixedDigits 2 cs2 with
        | some (mm, cs3) =>
          if hh ≤ 23 && mm ≤ 59 then
            let off : Int := (hh : Int) * 3600 + (mm : Int) * 60
            some (if c = '-' then -off else off, cs3)
          else none
        | none => none
      | none => none
    else none
  | [] => none

/-- Model of `datetime.strptime(s, "%Y-%m-%d %H:%M:%S %z").astimezone(utc)`
returning epoch seconds in UTC, or `none` where CPython raises
`ValueError`. -/
def strptimeGit (s : String) : Option Int := do
  let cs := s.data
  let (y, cs) ← parseFixedDigits 4 cs
  if y = 0 then none else
  let cs ← expectChar '-' cs
  let (mo, cs) ← parseOneTwoDigits cs
  if mo < 1 || 12 < mo then none else
  let cs ← expectChar '-' cs
  let (d, cs) ← parseOneTwoDigits cs
  if d < 1 || daysInMonth y mo < d then none else
  let cs ← expectChar ' ' cs
  let (h, cs) ← parseOneTwoDigits cs
  if 23 < h then none else
  let cs ← expectChar ':' cs
  let (mi, cs) ← parseOneTwoDigits cs
  if 59 < mi then none else
  let cs ← expectChar ':' cs
  let (se, cs) ← parseOneTwoDigits cs
  if 59 < se then none else
  let cs ← expectChar ' ' cs
  let (off, cs) ← parseTzOffset cs
  match cs with
  | [] => some (daysFromCivil y mo d * 86400
      + (h : Int) * 3600 + (mi : Int) * 60 + (se : Int) - off)
  | _ => none

/-! ## Commit log entries (gitparsing.py)

A raw entry is the `dict(zip(GIT_COMMIT_FIELDS, row))` of lines 110-112:
`id` is always present (a split always yields at least one field), the
remaining fields are present or absent (`Option`).  `format_entry_date`
(lines 162-167) turns the date string into a parsed timestamp; an entry
whose date is absent keeps it absent (`except KeyError: pass`), while a
present-but-unparseable date makes `strptime` raise `ValueError`, modelled
as `Except.error`. -/

structure RawEntry where
  id : String
  author_name : Option String
  author_email : Option String
  date : Option String
  message : Option String
  files : Option String
deriving DecidableEq

/-- An entry after `__format_entry_date`: the date, when present, is a
parsed UTC timestamp (epoch seconds). -/
structure FEntry where
  id : String
  author_name : Option String
  author_email : Option String
  date : Option Int
  message : Option String
  files : Option String
deriving DecidableEq

/-- Embedding of gitparsing.py lines 162-167 (`__format_entry_date`):
only `KeyError` (absent date) is caught; a present date string that
`strptime` cannot parse raises `ValueError`, carried here in
`Except.error`. -/
def format_entry_date (e : RawEntry) : Except String FEntry :=
  match e.date with
  | none => .ok ⟨e.id, e.author_name, e.author_email, none, e.message, e.files⟩
  | some s =>
    match strptimeGit s with
    | some t => .ok ⟨e.id, e.author_name, e.author_email, some t, e.message, e.files⟩
    | none => .error s

/-- Strict sequencing of `__format_entry_date` over the raw records
(line 123's `map`, whose deferred exceptions surface when the pipeline is
consumed by `pandas.DataFrame`). -/
def formatAll : List RawEntry → Except String (List FEntry)
  | [] => .ok []
  | r :: rest => do
    let x ← format_entry_date r
    let xs ← formatAll rest
    pure (x :: xs)

/-- Embedding of gitparsing.py lines 141-160 (`__is_entry_acceptable`).
Rule plugins are the `is_entry_acceptable` predicates of the dynamically
loaded ruleset modules, modelled as boolean functions; they are consulted
first, then the date checks run, where a missing date raises `KeyError`,
caught to `False`. -/
def is_entry_acceptable (rulesets : List (FEntry → Bool)) (entry : FEntry)
    (start_datetime end_datetime : Option Int) (now : Int) : Bool :=
  rulesets.all (fun r => r entry) &&
    match entry.date with
    | none => false
    | some d =>
      (match start_datetime with | some s => !decide (d < s) | none => true) &&
      (match end_datetime with | some e => !decide (e < d) | none => true) &&
      !decide (now < d)

/-- The date/plugin filtering stage of `__create_log_entries` (line 124). -/
def filterEntries (rulesets : List (FEntry → Bool)) (log : List FEntry)
    (start_datetime end_datetime : Option Int) (now : Int) : List FEntry :=
  log.filter (fun x => is_entry_acceptable rulesets x start_datetime end_datetime now)

/-- Python `s.strip("\n")`: drop leading and trailing newline characters. -/
def stripNewlines (s : String) : String :=
  ⟨((s.data.dropWhile (fun c => c == '\n')).reverse.dropWhile (fun c => c == '\n')).reverse⟩

/-- Python `s.split("\n")` on the underlying characters: splitting the
empty string yields `[""]`, adjacent separators yield empty pieces. -/
def splitCharsOnNl : List Char → List (List Char)
  | [] => [[]]
  | c :: cs =>
    let r := splitCharsOnNl cs
    if c = '\n' then [] :: r
    else
      match r with
      | g :: gs => (c :: g) :: gs
      | [] => [[c]]

/-- Python `s.split("\n")`. -/
def splitLines (s : String) : List String :=
  (splitCharsOnNl s.data).map (fun g => ⟨g⟩)

/-- An entry after `__postprocess_entry`: `files` is a Python `set`
(modelled as `Finset`), and `repository` is set. -/
structure PEntry where
  id : String
  author_name : Option String
  author_email : Option String
  date : Option Int
  message : Option String
  files : Finset String
  repository : String
deriving DecidableEq

/-- Embedding of gitparsing.py lines 169-184 (`__postprocess_entry`):
namespace the newline-separated file list and the id with the repository
short name, set `repository`, then run every ruleset's `postprocess_entry`
mutator in registration order. -/
def postprocess_entry (postRules : List (PEntry → PEntry)) (repository : String)
    (e : FEntry) : PEntry :=
  let files : Finset String :=
    match e.files with
    | some f =>
      ((splitLines (stripNewlines f)).map (fun x => repository ++ ":" ++ x)).toFinset
    | none => ∅
  let base : PEntry :=
    ⟨repository ++ ":" ++ e.id, e.author_name, e.author_email, e.date, e.message,
      files, repository⟩
  postRules.foldl (fun acc rule => rule acc) base

/-- Embedding of `__create_log_entries` (lines 96-127) from the point where
the raw key/value records exist: format dates, filter, postprocess.  The
`start_date`/`end_date` bounds arrive already converted to timestamps
(lines 115-121). -/
def create_log_entries (rulesets : List (FEntry → Bool)) (postRules : List (PEntry → PEntry))
    (repository : String) (rows : List RawEntry)
    (start_datetime end_datetime : Option Int) (now : Int) :
    Except String (List PEntry) := do
  let formatted ← formatAll rows
  let filtered := filterEntries rulesets formatted start_datetime end_datetime now
  pure (filtered.map (postprocess_entry postRules repository))

/-! ## Running the git subprocess (gitparsing.py lines 129-139) -/

/-- The observable outcome of the `subprocess.Popen` invocation on
line 130: the exit code, and the captured output bytes.  `stderr` is
redirected to `stdout` (`stderr=subprocess.STDOUT`), so `log` is the
merged stream. -/
structure ProcResult where
  returncode : Int
  log : List Nat
deriving DecidableEq

/-- Number of continuation bytes and the valid range of the first
continuation byte for a UTF-8 start byte, per the encoding's well-formed
byte ranges (used by CPython's decoder for maximal-subpart replacement). -/
def utf8SeqInfo (b : Nat) : Option (Nat × Nat × Nat) :=
  if 0xC2 ≤ b && b ≤ 0xDF then some (1, 0x80, 0xBF)
  else if b = 0xE0 then some (2, 0xA0, 0xBF)
  else if 0xE1 ≤ b && b ≤ 0xEC then some (2, 0x80, 0xBF)
  else if b = 0xED then some (2, 0x80, 0x9F)
  else if 0xEE ≤ b && b ≤ 0xEF then some (2, 0x80, 0xBF)
  else if b = 0xF0 then some (3, 0x90, 0xBF)
  else if 0xF1 ≤ b && b ≤ 0xF3 then some (3, 0x80, 0xBF)
  else if b = 0xF4 then some (3, 0x80, 0x8F)
  else none

def isCont (b : Nat) : Bool := 0x80 ≤ b && b ≤ 0xBF

def replacementChar : Char := Char.ofNat 0xFFFD

/-- Model of `bytes.decode("utf-8", errors="replace")`: well-formed
sequences decode to their code point, each maximal invalid subpart becomes
one U+FFFD. -/
def decodeUtf8ReplaceAux : List Nat → List Char
  | [] => []
  | b :: rest =>
    if b < 0x80 then Char.ofNat b :: decodeUtf8ReplaceAux rest
    else
      match utf8SeqInfo b with
      | none => replacementChar :: decodeUtf8ReplaceAux rest
      | some (n, lo, hi) =>
        match rest with
        | [] => [replacementChar]
        | c1 :: r1 =>
          if c1 < lo || hi < c1 then replacementChar :: decodeUtf8ReplaceAux (c1 :: r1)
          else if n = 1 then
            Char.ofNat ((b % 0x20) * 64 + c1 % 0x40) :: decodeUtf8ReplaceAux r1
          else
            match r1 with
            | [] => [replacementChar]
            | c2 :: r2 =>
              if !isCont c2 then replacementChar :: decodeUtf8ReplaceAux (c2 :: r2)
              else if n = 2 then
                Char.ofNat ((b % 0x10) * 4096 + (c1 % 0x40) * 64 + c2 % 0x40) ::
                  decodeUtf8ReplaceAux r2
              else
                match r2 with
                | [] => [replacementChar]
                | c3 :: r3 =>
                  if !isCont c3 then replacementChar :: decodeUtf8ReplaceAux (c3 :: r3)
                  else
                    Char.ofNat ((b % 0x8) * 262144 + (c1 % 0x40) * 4096
                        + (c2 % 0x40) * 64 + c3 % 0x40) ::
                      decodeUtf8ReplaceAux r3

def decodeUtf8Replace (l : List Nat) : String := ⟨decodeUtf8ReplaceAux l⟩

/-- Embedding of `__run_command` (gitparsing.py lines 129-139): raise
`OSError(log)` when the exit code is non-zero, otherwise return the
decoded captured output. -/
def run_command (p : ProcResult) : Except (List Nat) String :=
  if p.returncode ≠ 0 then .error p.log
  else .ok (decodeUtf8Replace p.log)

/-! ## Merged-table ids (gitparsing.py lines 179, 200-211) -/

/-- Python `os.path.basename`: the part of the path after the last `/`. -/
def basename (p : String) : String :=
  ⟨((p.data.reverse.takeWhile (fun c => c != '/')).reverse)⟩

/-- The id namespacing of `__postprocess_entry` line 179:
`"%s:%s" % (repository, entry["id"])`. -/
def mkId (repository hash : String) : String := repository ++ ":" ++ hash

/-- The ids contributed by one repository root: every commit hash of its
log, namespaced with the root's basename (lines 125 and 179). -/
def repoIds (path : String) (hashes : List String) : List String :=
  hashes.map (fun h => mkId (basename path) h)

/-- The ids of the merged table built by `get_log_from_repositories`
(lines 200-211): per-repository logs are concatenated in order, not
deduplicated. -/
def mergedIds (repos : List (String × List String)) : List String :=
  repos.foldr (fun pr acc => repoIds pr.1 pr.2 ++ acc) []

/-! ## Repository locator (gitparsing.py lines 60-87)

The filesystem is modelled as predicates over absolute paths given as
component lists.  `os.path.abspath` normalises lexically and does NOT
resolve symlinks, so a path reached through a symlink keeps its unresolved
spelling; `os.path.isdir` and `os.listdir` DO follow symlinks.  The
recursion of `add_repositories`/`__add_repositories` is embedded with an
explicit fuel (recursion depth); `none` models a run that exhausts every
depth, i.e. the Python recursion that never returns. -/

structure FS where
  hasGit : List String → Bool
  isDir : List String → Bool
  listdir : List String → List String

/-- Sequence a list of optional results, concatenating them in order; any
failed child aborts the whole traversal (models an exception propagating
out of the `for` loop). -/
def combineOpts {α : Type} : List (Option (List α)) → Option (List α)
  | [] => some []
  | none :: _ => none
  | some l :: rest => (combineOpts rest).map (fun r => l ++ r)

/-- Embedding of `__add_repositories` for a single path (lines 77-87):
if `<path>/.git` exists, append the path (via `add_repository`, whose
re-check cannot fail here); otherwise, if the path is a directory, recurse
into every child via `add_repositories`.  Returns the appended paths in
order; `none` when the given recursion depth is exhausted. -/
def addReposOne (fs : FS) : Nat → List String → Option (List (List String))
  | 0, _ => none
  | fuel + 1, p =>
    if fs.hasGit p then some [p]
    else if fs.isDir p then
      combineOpts ((fs.listdir p).map (fun c => addReposOne fs fuel (p ++ [c])))
    else some []

/-- Iterating `__add_repositories` over a list of paths (line 78's loop). -/
def addReposMany (fs : FS) (fuel : Nat) (ps : List (List String)) :
    Option (List (List String)) :=
  combineOpts (ps.map (addReposOne fs fuel))

/-- The dynamically-typed argument of `add_repositories` (line 71): either
a single string path or a list of paths. -/
inductive PathsArg where
  | str (p : List String)
  | list (ps : List (List String))

/-- Embedding of `add_repositories` (lines 71-75): a bare string is
wrapped into a one-element list before iterating. -/
def add_repositories (fs : FS) (fuel : Nat) : PathsArg → Option (List (List String))
  | .str p => addReposMany fs fuel [p]
  | .list ps => addReposMany fs fuel ps

/-- A filesystem containing a directory `/d` whose entry `loop` is a
symlink back to `/d`: since `abspath` never resolves the link, the scan
sees an infinite tree of directories `/d/loop/loop/...`, each again
containing `loop`, and none containing `.git`. -/
def cycFS : FS where
  hasGit _ := false
  isDir p := match p with | "d" :: rest => rest.all (fun c => c == "loop") | _ => false
  listdir p :=
    match p with
    | "d" :: rest => if rest.all (fun c => c == "loop") then ["loop"] else []
    | _ => []

/-- A filesystem with a single git repository at `/r`. -/
def dupFS : FS where
  hasGit p := p == ["r"]
  isDir _ := false
  listdir _ := []

/-! ## Weekly aggregation (authorage.py lines 48-73)

Commit timestamps enter at calendar-day resolution (days since
1970-01-01): line 49 snaps each date to its week, discarding sub-day
precision before anything else uses it.  pandas group-by sorts its keys
and drops no rows; missing cells produced by index alignment are NaN,
modelled as `none`, and `cumsum`/`sub` propagate NaN. -/

structure CommitRow where
  id : String
  author_name : String
  date : Int
deriving DecidableEq

/-- Embedding of authorage.py lines 49-50:
`DatetimeIndex(log["date"]).to_period("W").to_timestamp()` snaps a date to
the Monday starting its week (1970-01-05, day 4, was a Monday), and
`x - timedelta(days=3)` then moves it back three days. -/
def bucketDate (t : Int) : Int := t - (t - 4) % 7 - 3

/-- The log after line 49-50 replaced `date` by its bucketed value. -/
def bucketedLog (log : List CommitRow) : List CommitRow :=
  log.map (fun r => { r with date := bucketDate r.date })

/-- The distinct author names, i.e. the index of `log.groupby("author_name")`. -/
def authorsOf (log : List CommitRow) : List String :=
  (log.map (fun r => r.author_name)).dedup

/-- The bucketed dates of one author's commits (one group of
`log.groupby("author_name")["date"]`). -/
def authorDates (log : List CommitRow) (a : String) : List Int :=
  ((bucketedLog log).filter (fun r => r.author_name == a)).map (fun r => r.date)

/-- Minimum of a list of integers (`groupby(...).min()`), `none` on an
empty list. -/
def minD : List Int → Option Int
  | [] => none
  | x :: xs => some (xs.foldl min x)

/-- Maximum of a list of integers (`groupby(...).max()`). -/
def maxD : List Int → Option Int
  | [] => none
  | x :: xs => some (xs.foldl max x)

/-- Column `authors_age["min"]` (= `month_arrival`), authorage.py
lines 54/56: the author's earliest bucketed commit date. -/
def arrivalOf (log : List CommitRow) (a : String) : Option Int :=
  minD (authorDates log a)

/-- Column `authors_age["max"]` (= `month_departure`), lines 55/57. -/
def departureOf (log : List CommitRow) (a : String) : Option Int :=
  maxD (authorDates log a)

/-- Line 61: per-commit age in fractional years,
`(x["date"] - authors_age["min"][x["author_name"]]).days / 365`, where
`x["date"]` is already bucketed.  The `getD 0` default is never reached
for a row of the log, whose author always has at least that commit. -/
def ageOf (log : List CommitRow) (r : CommitRow) : ℚ :=
  ((r.date - (minD (authorDates log r.author_name)).getD 0 : Int) : ℚ) / 365

/-- The log with its `age` column (line 61), one pair per commit row. -/
def agedLog (log : List CommitRow) : List (CommitRow × ℚ) :=
  (bucketedLog log).map (fun r => (r, ageOf log r))

def insertSorted (x : Int) : List Int → List Int
  | [] => [x]
  | y :: ys => if x ≤ y then x :: y :: ys else y :: insertSorted x ys

def sortInts (l : List Int) : List Int := l.foldr insertSorted []

/-- The index of the `data` frame: the distinct bucketed dates in
ascending order (`log.groupby("date")` sorts its keys). -/
def dataKeys (log : List CommitRow) : List Int :=
  sortInts ((bucketedLog log).map (fun r => r.date)).dedup

/-- Line 67 numerator: `log_by_date["age"].sum()` at a bucket. -/
def ageSumAt (log : List CommitRow) (d : Int) : ℚ :=
  (((agedLog log).filter (fun p => p.1.date == d)).map (fun p => p.2)).sum

/-- Lines 67-68 denominator: `log_by_date["id"].count()` — the ids are
never null, so this is the number of commits in the bucket. -/
def commitCountAt (log : List CommitRow) (d : Int) : Nat :=
  ((agedLog log).filter (fun p => p.1.date == d)).length

/-- Line 67: `data["commit_author_age"]` at a bucket. -/
def commitAuthorAgeAt (log : List CommitRow) (d : Int) : ℚ :=
  ageSumAt log d / (commitCountAt log d : ℚ)

/-- Line 69: `authors_age.groupby("month_arrival")["author_name"].count()`
at a bucket: how many authors arrive there. -/
def newcomersAt (log : List CommitRow) (d : Int) : Nat :=
  ((authorsOf log).filter (fun a => arrivalOf log a == some d)).length

/-- Line 70: how many authors depart at a bucket. -/
def leavingAt (log : List CommitRow) (d : Int) : Nat :=
  ((authorsOf log).filter (fun a => departureOf log a == some d)).length

/-- `data["newcomers_count"]` cell: assigning the arrival-indexed count
series into the bucket-indexed frame aligns on the index, leaving NaN
(`none`) at buckets where no author arrives. -/
def newcomersOptAt (log : List CommitRow) (d : Int) : Option Int :=
  let n := newcomersAt log d
  if n = 0 then none else some (n : Int)

/-- `data["leaving_count"]` cell, NaN at buckets where nobody departs. -/
def leavingOptAt (log : List CommitRow) (d : Int) : Option Int :=
  let n := leavingAt log d
  if n = 0 then none else some (n : Int)

/-- The `newcomers_count` column in index order. -/
def newcomersSeries (log : List CommitRow) : List (Option Int) :=
  (dataKeys log).map (newcomersOptAt log)

/-- The `leaving_count` column in index order. -/
def leavingSeries (log : List CommitRow) : List (Option Int) :=
  (dataKeys log).map (leavingOptAt log)

/-- pandas `Series.cumsum` with its default `skipna=True`: a NaN cell
stays NaN, and the running sum continues past it. -/
def cumsumOpt (acc : Int) : List (Option Int) → List (Option Int)
  | [] => []
  | none :: rest => none :: cumsumOpt acc rest
  | some v :: rest => some (acc + v) :: cumsumOpt (acc + v) rest

/-- Lines 71-73: `active_count = cumulative_newcomers - cumulative_leaving`,
where subtraction of NaN yields NaN. -/
def activeSeries (log : List CommitRow) : List (Option Int) :=
  List.zipWith
    (fun a b => match a, b with | some x, some y => some (x - y) | _, _ => none)
    (cumsumOpt 0 (newcomersSeries log)) (cumsumOpt 0 (leavingSeries log))

/-- Sum of the first `k` cells of a column, a missing cell counting as
zero (the "cumulative count up to a bucket" of the specification). -/
def prefixSumOpt (l : List (Option Int)) (k : Nat) : Int :=
  ((l.take k).map (fun o => o.getD 0)).sum

/-! ## Theorems -/

theorem foldl_min_le (xs : List Int) : ∀ x : Int, xs.foldl min x ≤ x := by
  induction xs with
  | nil => intro x; simp
  | cons y ys ih =>
    intro x
    calc ys.foldl min (min x y) ≤ min x y := ih _
      _ ≤ x := min_le_left _ _

theorem le_foldl_max (xs : List Int) : ∀ x : Int, x ≤ xs.foldl max x := by
  induction xs with
  | nil => intro x; simp
  | cons y ys ih =>
    intro x
    calc x ≤ max x y := le_max_left _ _
      _ ≤ ys.foldl max (max x y) := ih _

/-- C9: for every author with at least one commit in the merged table, the
arrival (minimum bucketed commit date) is at most the departure (maximum
bucketed commit date). -/
theorem arrival_le_departure (log : List CommitRow) (a : String) (lo hi : Int)
    (h1 : arrivalOf log a = some lo) (h2 : departureOf log a = some hi) :
    lo ≤ hi := by
  rw [arrivalOf] at h1
  rw [departureOf] at h2
  cases hd : authorDates log a with
  | nil => rw [hd] at h1; exact absurd h1 (by simp [minD])
  | cons x xs =>
    rw [hd] at h1 h2
    simp only [minD, Option.some.injEq] at h1
    simp only [maxD, Option.some.injEq] at h2
    rw [← h1, ← h2]
    exact le_trans (foldl_min_le xs x) (le_foldl_max xs x)

/-- Witness for C9 at a concrete two-commit log. -/
theorem arrival_le_departure_witness :
    arrivalOf [(⟨"c1", "A", 4⟩ : CommitRow), ⟨"c2", "A", 11⟩] "A" = some 1 ∧
    departureOf [(⟨"c1", "A", 4⟩ : CommitRow), ⟨"c2", "A", 11⟩] "A" = some 8 ∧
    (1 : Int) ≤ 8 :=
  ⟨by decide, by decide,
    arrival_le_departure [⟨"c1", "A", 4⟩, ⟨"c2", "A", 11⟩] "A" 1 8 (by decide) (by decide)⟩

/-- C7: `__run_command` raises exactly when the tool exits non-zero, the
error payload is the captured merged output, and a zero exit returns that
output decoded. -/
theorem run_command_spec (p : ProcResult) (l : List Nat) (s : String) :
    (run_command p = .error l ↔ (p.returncode ≠ 0 ∧ l = p.log)) ∧
    (run_command p = .ok s ↔ (p.returncode = 0 ∧ s = decodeUtf8Replace p.log)) := by
  by_cases h : p.returncode = 0 <;>
    simp [run_command, h, eq_comm]

/-- C10: `add_repositories` wraps a bare string argument into a
one-element list, so both spellings accumulate the same paths. -/
theorem add_repositories_string_singleton (fs : FS) (fuel : Nat) (p : List String) :
    add_repositories fs fuel (.str p) = add_repositories fs fuel (.list [p]) := rfl

theorem addReposOne_cycFS_none :
    ∀ (n : Nat) (rest : List String), rest.all (fun c => c == "loop") = true →
      addReposOne cycFS n ("d" :: rest) = none := by
  intro n
  induction n with
  | zero => intro rest _; rfl
  | succ n ih =>
    intro rest h
    have h' : ∀ x ∈ rest, x = "loop" := by simpa using h
    have hdir : cycFS.isDir ("d" :: rest) = true := by
      simp only [cycFS]; simpa using h'
    have hls : cycFS.listdir ("d" :: rest) = ["loop"] := by
      simp only [cycFS, h, if_true]
    have hgit : cycFS.hasGit ("d" :: rest) = false := rfl
    simp only [addReposOne, hgit, hdir, hls, Bool.false_eq_true, if_false, if_true,
      List.map]
    have happ : ("d" :: rest) ++ ["loop"] = "d" :: (rest ++ ["loop"]) := rfl
    rw [happ, ih (rest ++ ["loop"]) (by simp [List.all_append, h])]
    rfl

/-- C8 (failing-input theorem): on a filesystem where directory `/d`
contains a symlink `loop` back to `/d`, the recursive scan started at `/d`
exhausts every recursion depth (it never terminates, there is no
visited-set); and feeding the same repository path twice produces two
entries, not one. -/
theorem add_repositories_cycle_and_duplicates :
    (∀ fuel : Nat, add_repositories cycFS fuel (.str ["d"]) = none) ∧
    add_repositories dupFS 1 (.list [["r"], ["r"]]) = some [["r"], ["r"]] := by
  refine ⟨fun fuel => ?_, rfl⟩
  show addReposMany cycFS fuel [["d"]] = none
  simp only [addReposMany, List.map]
  rw [show (["d"] : List String) = "d" :: [] from rfl,
    addReposOne_cycFS_none fuel [] rfl]
  rfl

/-- C1: a formatted record with a (timezone-aware, i.e. successfully
parsed) date survives the filtering stage if and only if it was in the
input, every registered ruleset accepts it, its date lies in the inclusive
range of whichever bounds are supplied, and its date is not after the
extraction-time now. -/
theorem acceptance_filter_iff (rulesets : List (FEntry → Bool)) (log : List FEntry)
    (sd ed : Option Int) (now : Int) (entry : FEntry) (d : Int)
    (hd : entry.date = some d) :
    entry ∈ filterEntries rulesets log sd ed now ↔
      (entry ∈ log ∧ (∀ r ∈ rulesets, r entry = true) ∧
       (∀ s, sd = some s → s ≤ d) ∧ (∀ e, ed = some e → d ≤ e) ∧ d ≤ now) := by
  unfold filterEntries
  rw [List.mem_filter]
  unfold is_entry_acceptable
  rw [hd]
  cases sd <;> cases ed <;>
    simp [List.all_eq_true, not_lt, and_assoc]

/-- Witness for C1: with no plugins, bounds 0 and 100 and now 50, a record
dated 10 is kept. -/
theorem acceptance_filter_iff_witness :
    (⟨"h", none, none, some 10, none, none⟩ : FEntry).date = some 10 ∧
    (⟨"h", none, none, some 10, none, none⟩ : FEntry) ∈
      filterEntries [] [⟨"h", none, none, some 10, none, none⟩] (some 0) (some 100) 50 := by
  refine ⟨rfl, (acceptance_filter_iff [] [⟨"h", none, none, some 10, none, none⟩]
    (some 0) (some 100) 50 ⟨"h", none, none, some 10, none, none⟩ 10 rfl).mpr
    ⟨by simp, by simp, ?_, ?_, by decide⟩⟩
  · intro s hs; injection hs with h; omega
  · intro e he; injection he with h; omega

/-- C6 counterexample: a record whose file list is present but empty (the
shape a merge commit produces) gets the one-element file set containing
just the bare `repository:` prefix, not the empty set the claim
predicts. -/
theorem empty_files_string_not_empty_set :
    (postprocess_entry [] "r" ⟨"h", none, none, none, none, some ""⟩).files = {"r:"} ∧
    (postprocess_entry [] "r" ⟨"h", none, none, none, none, some ""⟩).files ≠
      (∅ : Finset String) := by
  constructor <;> decide

/-- C6 amended: a record with an absent file list gets the empty file set,
and whenever the file list is present every element of the resulting set
is of the shape `repository:path`.  (An empty-but-present file string
yields the singleton set of the bare prefix, per the counterexample.) -/
theorem files_namespacing (repository : String) (e : FEntry) :
    (e.files = none → (postprocess_entry [] repository e).files = ∅) ∧
    (∀ s, e.files = some s → ∀ x ∈ (postprocess_entry [] repository e).files,
      ∃ y, x = repository ++ ":" ++ y) := by
  constructor
  · intro h; simp [postprocess_entry, h]
  · intro s hs x hx
    simp only [postprocess_entry, hs, List.foldl_nil, List.mem_toFinset,
      List.mem_map] at hx
    obtain ⟨y, -, rfl⟩ := hx
    exact ⟨y, rfl⟩

/-- Witness for C6 at concrete records with an absent and with a
two-entry file list. -/
theorem files_namespacing_witness :
    (postprocess_entry [] "r" ⟨"h", none, none, none, none, none⟩).files = ∅ ∧
    (∃ y, "r:a" = "r" ++ ":" ++ y) :=
  ⟨(files_namespacing "r" ⟨"h", none, none, none, none, none⟩).1 rfl,
   (files_namespacing "r" ⟨"h", none, none, none, none, some "a\nb"⟩).2 "a\nb" rfl "r:a"
     (by decide)⟩

/-- C5 counterexample: a raw record whose date string is present but
unparseable makes the extraction raise (`strptime`'s `ValueError` is not
caught on gitparsing.py line 164), instead of being silently dropped. -/
theorem unparseable_date_raises :
    create_log_entries [] [] "r" [⟨"h", none, none, some "notadate", none, none⟩]
      none none 0 = .error "notadate" := rfl

theorem accept_false_of_date_none (rulesets : List (FEntry → Bool)) (entry : FEntry)
    (sd ed : Option Int) (now : Int) (h : entry.date = none) :
    is_entry_acceptable rulesets entry sd ed now = false := by
  simp [is_entry_acceptable, h]

theorem filterEntries_drop_dateless (rulesets : List (FEntry → Bool))
    (fl : List FEntry) (sd ed : Option Int) (now : Int) :
    filterEntries rulesets fl sd ed now =
      filterEntries rulesets (fl.filter (fun x => x.date.isSome)) sd ed now := by
  unfold filterEntries
  rw [List.filter_filter]
  apply List.filter_congr
  intro x _
  cases hdx : x.date with
  | none => simp [accept_false_of_date_none rulesets x sd ed now hdx]
  | some d => simp [hdx]

theorem formatAll_filter_dateless (rows : List RawEntry)
    (h : ∀ r ∈ rows, r.date.all (fun ds => (strptimeGit ds).isSome) = true) :
    ∃ fl, formatAll rows = .ok fl ∧
      formatAll (rows.filter (fun r => r.date.isSome)) =
        .ok (fl.filter (fun x => x.date.isSome)) := by
  induction rows with
  | nil => exact ⟨[], rfl, rfl⟩
  | cons r rest ih =>
    obtain ⟨fl, h1, h2⟩ := ih (fun x hx => h x (List.mem_cons_of_mem r hx))
    have hr := h r (List.mem_cons_self r rest)
    cases hdr : r.date with
    | none =>
      refine ⟨⟨r.id, r.author_name, r.author_email, none, r.message, r.files⟩ :: fl,
        ?_, ?_⟩
      · simp only [formatAll, format_entry_date, hdr, h1]; rfl
      · simpa [hdr, List.filter_cons] using h2
    | some ds =>
      rw [hdr] at hr
      obtain ⟨t, ht⟩ := Option.isSome_iff_exists.mp (by simpa using hr)
      refine ⟨⟨r.id, r.author_name, r.author_email, some t, r.message, r.files⟩ :: fl,
        ?_, ?_⟩
      · simp only [formatAll, format_entry_date, hdr, ht, h1]; rfl
      · simp only [List.filter_cons, hdr, Option.isSome_some, if_true,
          formatAll, format_entry_date, ht, h2]
        rfl

/-- C5 amended: when every present date string parses, extraction succeeds
and raw records with a missing date field are silently dropped (removing
them from the input does not change the output); a present-but-unparseable
date string instead raises (see the counterexample). -/
theorem missing_date_dropped_silently (rulesets : List (FEntry → Bool))
    (postRules : List (PEntry → PEntry)) (repo : String) (rows : List RawEntry)
    (sd ed : Option Int) (now : Int)
    (h : ∀ r ∈ rows, r.date.all (fun ds => (strptimeGit ds).isSome) = true) :
    ∃ l, create_log_entries rulesets postRules repo rows sd ed now = .ok l ∧
      create_log_entries rulesets postRules repo
        (rows.filter (fun r => r.date.isSome)) sd ed now = .ok l := by
  obtain ⟨fl, h1, h2⟩ := formatAll_filter_dateless rows h
  refine ⟨(filterEntries rulesets fl sd ed now).map (postprocess_entry postRules repo),
    ?_, ?_⟩
  · unfold create_log_entries
    rw [h1]
    rfl
  · unfold create_log_entries
    rw [h2]
    show Except.ok ((filterEntries rulesets (fl.filter (fun x => x.date.isSome))
      sd ed now).map (postprocess_entry postRules repo)) = _
    rw [← filterEntries_drop_dateless]

/-- Witness for C5: a single record with a missing date is dropped without
an error. -/
theorem missing_date_dropped_silently_witness :
    (∀ r ∈ [(⟨"h1", none, none, none, none, none⟩ : RawEntry)],
      r.date.all (fun ds => (strptimeGit ds).isSome) = true) ∧
    ∃ l, create_log_entries [] [] "r" [⟨"h1", none, none, none, none, none⟩]
        none none 0 = .ok l ∧
      create_log_entries [] [] "r"
        ([(⟨"h1", none, none, none, none, none⟩ : RawEntry)].filter
          (fun r => r.date.isSome)) none none 0 = .ok l :=
  ⟨by decide, missing_date_dropped_silently [] [] "r"
    [⟨"h1", none, none, none, none, none⟩] none none 0 (by decide)⟩

theorem sepInjAux : ∀ (u1 u2 v1 v2 : List Char), ':' ∉ u1 → ':' ∉ u2 →
    u1 ++ ':' :: v1 = u2 ++ ':' :: v2 → u1 = u2 ∧ v1 = v2 := by
  intro u1
  induction u1 with
  | nil =>
    intro u2 v1 v2 _ h2 heq
    cases u2 with
    | nil => simpa using heq
    | cons b bs =>
      simp only [List.nil_append, List.cons_append, List.cons.injEq] at heq
      exact absurd (heq.1 ▸ List.mem_cons_self b bs) h2
  | cons a as ih =>
    intro u2 v1 v2 h1 h2 heq
    cases u2 with
    | nil =>
      simp only [List.nil_append, List.cons_append, List.cons.injEq] at heq
      exact absurd (heq.1.symm ▸ List.mem_cons_self a as) h1
    | cons b bs =>
      simp only [List.cons_append, List.cons.injEq] at heq
      have h1t : ':' ∉ as := fun hm => h1 (List.mem_cons_of_mem a hm)
      have h2t : ':' ∉ bs := fun hm => h2 (List.mem_cons_of_mem b hm)
      have hr := ih bs v1 v2 h1t h2t heq.2
      exact ⟨by rw [heq.1, hr.1], hr.2⟩

theorem mkId_inj (r1 r2 s1 s2 : String) (hc1 : ':' ∉ s1.data) (hc2 : ':' ∉ s2.data)
    (he : mkId r1 s1 = mkId r2 s2) : r1 = r2 ∧ s1 = s2 := by
  have hd : r1.data ++ ':' :: s1.data = r2.data ++ ':' :: s2.data := by
    have h0 : (mkId r1 s1).data = (mkId r2 s2).data := by rw [he]
    simpa [mkId, String.data_append] using h0
  have hrev : s1.data.reverse ++ ':' :: r1.data.reverse =
      s2.data.reverse ++ ':' :: r2.data.reverse := by
    have h0 := congrArg List.reverse hd
    simpa [List.reverse_append] using h0
  have hr := sepInjAux _ _ _ _ (by simpa using hc1) (by simpa using hc2) hrev
  refine ⟨String.ext ?_, String.ext ?_⟩
  · exact List.reverse_injective hr.2
  · exact List.reverse_injective hr.1

theorem mem_mergedIds (repos : List (String × List String)) (x : String) :
    x ∈ mergedIds repos ↔ ∃ pr ∈ repos, ∃ hsh ∈ pr.2, x = mkId (basename pr.1) hsh := by
  induction repos with
  | nil => simp [mergedIds]
  | cons p rest ih =>
    simp only [mergedIds, List.foldr_cons, List.mem_append] at *
    constructor
    · rintro (hm | hm)
      · simp only [repoIds, List.mem_map] at hm
        obtain ⟨hsh, hh, rfl⟩ := hm
        exact ⟨p, List.mem_cons_self p rest, hsh, hh, rfl⟩
      · obtain ⟨pr, hpr, hsh, hh, hx⟩ := ih.mp hm
        exact ⟨pr, List.mem_cons_of_mem p hpr, hsh, hh, hx⟩
    · rintro ⟨pr, hpr, hsh, hh, rfl⟩
      rcases List.mem_cons.mp hpr with rfl | hpr
      · exact Or.inl (List.mem_map.mpr ⟨hsh, hh, rfl⟩)
      · exact Or.inr (ih.mpr ⟨pr, hpr, hsh, hh, rfl⟩)

/-- C2 counterexample: two different repository roots with the same
directory basename (`/a/proj` and `/b/proj`) containing the same commit
hash produce the same namespaced id twice, so the merged ids are not
pairwise distinct. -/
theorem merged_ids_collision :
    mergedIds [("/a/proj", ["abc"]), ("/b/proj", ["abc"])] =
      ["proj:abc", "proj:abc"] ∧
    ¬ (mergedIds [("/a/proj", ["abc"]), ("/b/proj", ["abc"])]).Nodup := by
  constructor <;> decide

/-- C2 amended: the merged ids are pairwise distinct provided the
repository roots have pairwise-distinct directory basenames, each
repository lists each commit hash once, and hashes contain no `:` (true
of git's hexadecimal hashes).  Namespacing alone does not prevent
collisions between roots that share a basename (see the
counterexample). -/
theorem merged_ids_nodup (repos : List (String × List String))
    (hbase : (repos.map (fun pr => basename pr.1)).Nodup)
    (hhash : ∀ pr ∈ repos, pr.2.Nodup)
    (hcolon : ∀ pr ∈ repos, ∀ hsh ∈ pr.2, ':' ∉ hsh.data) :
    (mergedIds repos).Nodup := by
  induction repos with
  | nil => simp [mergedIds]
  | cons p rest ih =>
    simp only [List.map_cons, List.nodup_cons] at hbase
    show (repoIds p.1 p.2 ++ mergedIds rest).Nodup
    refine List.Nodup.append ?_ ?_ ?_
    · refine List.Nodup.map_on ?_ (hhash p (List.mem_cons_self p rest))
      intro x hx y hy hxy
      exact (mkId_inj _ _ x y (hcolon p (List.mem_cons_self p rest) x hx)
        (hcolon p (List.mem_cons_self p rest) y hy) hxy).2
    · exact ih hbase.2 (fun pr h => hhash pr (List.mem_cons_of_mem p h))
        (fun pr h => hcolon pr (List.mem_cons_of_mem p h))
    · intro x hx hx2
      simp only [repoIds, List.mem_map] at hx
      obtain ⟨hsh, hh, rfl⟩ := hx
      obtain ⟨pr, hpr, hsh2, hh2, heq⟩ := (mem_mergedIds rest _).mp hx2
      have hinj := mkId_inj _ _ _ _
        (hcolon p (List.mem_cons_self p rest) hsh hh)
        (hcolon pr (List.mem_cons_of_mem p hpr) hsh2 hh2) heq
      exact hbase.1 (hinj.1 ▸ List.mem_map.mpr ⟨pr, hpr, rfl⟩)

/-- Witness for C2 at two concrete roots with distinct basenames. -/
theorem merged_ids_nodup_witness :
    (([("/a/p1", ["aa"]), ("/b/p2", ["aa"])] :
        List (String × List String)).map (fun pr => basename pr.1)).Nodup ∧
    (∀ pr ∈ ([("/a/p1", ["aa"]), ("/b/p2", ["aa"])] : List (String × List String)),
      pr.2.Nodup) ∧
    (∀ pr ∈ ([("/a/p1", ["aa"]), ("/b/p2", ["aa"])] : List (String × List String)),
      ∀ hsh ∈ pr.2, ':' ∉ hsh.data) ∧
    (mergedIds [("/a/p1", ["aa"]), ("/b/p2", ["aa"])]).Nodup :=
  ⟨by decide, by decide, by decide,
    merged_ids_nodup [("/a/p1", ["aa"]), ("/b/p2", ["aa"])]
      (by decide) (by decide) (by decide)⟩

theorem cumsumOpt_getElem (l : List (Option Int)) :
    ∀ (acc : Int) (n : Nat) (v : Int), l[n]? = some (some v) →
      (cumsumOpt acc l)[n]? = some (some (acc + prefixSumOpt l (n + 1))) := by
  induction l with
  | nil => intro acc n v h; simp at h
  | cons o rest ih =>
    intro acc n v h
    cases o with
    | none =>
      cases n with
      | zero => simp at h
      | succ n =>
        simp only [List.getElem?_cons_succ] at h
        simp only [cumsumOpt, List.getElem?_cons_succ]
        rw [ih acc n v h]
        simp only [prefixSumOpt, List.take_succ_cons, List.map_cons, List.sum_cons,
          Option.getD_none, Option.some.injEq]
        omega
    | some w =>
      cases n with
      | zero =>
        simp only [cumsumOpt, List.getElem?_cons_zero, prefixSumOpt,
          List.take_succ_cons, List.take_zero, List.map_cons, List.map_nil,
          List.sum_cons, List.sum_nil, Option.getD_some, Option.some.injEq]
        omega
      | succ n =>
        simp only [List.getElem?_cons_succ] at h
        simp only [cumsumOpt, List.getElem?_cons_succ]
        rw [ih (acc + w) n v h]
        simp only [prefixSumOpt, List.take_succ_cons, List.map_cons, List.sum_cons,
          Option.getD_some, Option.some.injEq]
        omega

theorem getElem_zipWith_opt {α β γ : Type} (f : α → β → γ) :
    ∀ (l1 : List α) (l2 : List β) (n : Nat) (x : α) (y : β),
      l1[n]? = some x → l2[n]? = some y →
      (List.zipWith f l1 l2)[n]? = some (f x y) := by
  intro l1
  induction l1 with
  | nil => intro l2 n x y h1 _; simp at h1
  | cons a as ih =>
    intro l2 n x y h1 h2
    cases l2 with
    | nil => simp at h2
    | cons b bs =>
      cases n with
      | zero =>
        simp only [List.getElem?_cons_zero, Option.some.injEq] at h1 h2
        simp [List.zipWith, h1, h2]
      | succ n =>
        simp only [List.getElem?_cons_succ] at h1 h2
        simpa [List.zipWith] using ih bs n x y h1 h2

/-- C3 counterexample: in a two-bucket log where author A arrives at the
first bucket and departs at the second, the first bucket has a newcomer
but no leaver, so its `leaving_count` is NaN, `cumulative_leaving` is NaN,
and `active_count` is NaN — not the zero-filled value 1 the claim
predicts. -/
theorem active_count_nan_counterexample :
    (activeSeries [⟨"c1", "A", 4⟩, ⟨"c2", "A", 11⟩])[0]? = some none ∧
    prefixSumOpt (newcomersSeries [⟨"c1", "A", 4⟩, ⟨"c2", "A", 11⟩]) 1 -
      prefixSumOpt (leavingSeries [⟨"c1", "A", 4⟩, ⟨"c2", "A", 11⟩]) 1 = 1 ∧
    (activeSeries [⟨"c1", "A", 4⟩, ⟨"c2", "A", 11⟩])[0]? ≠ some (some 1) := by
  refine ⟨?_, ?_, ?_⟩ <;> decide

/-- C3 amended: at every bucket where both at least one author arrives and
at least one departs, `active_count` equals the cumulative newcomers minus
the cumulative leavers over the buckets so far, a bucket without arrivals
or departures contributing zero to the running sums; at a bucket lacking
arrivals or lacking departures `active_count` is NaN rather than the
zero-filled value (see the counterexample), so the `n`/`n−1` recurrence
only holds between defined cells. -/
theorem active_count_prefix_sum (log : List CommitRow) (n : Nat) (a b : Int)
    (ha : (newcomersSeries log)[n]? = some (some a))
    (hb : (leavingSeries log)[n]? = some (some b)) :
    (activeSeries log)[n]? =
      some (some (prefixSumOpt (newcomersSeries log) (n + 1) -
        prefixSumOpt (leavingSeries log) (n + 1))) := by
  have h1 := cumsumOpt_getElem (newcomersSeries log) 0 n a ha
  have h2 := cumsumOpt_getElem (leavingSeries log) 0 n b hb
  unfold activeSeries
  rw [getElem_zipWith_opt _ _ _ n _ _ h1 h2]
  simp

/-- Witness for C3 at a one-commit log whose single bucket has both an
arrival and a departure. -/
theorem active_count_prefix_sum_witness :
    (newcomersSeries [(⟨"c", "A", 4⟩ : CommitRow)])[0]? = some (some 1) ∧
    (leavingSeries [(⟨"c", "A", 4⟩ : CommitRow)])[0]? = some (some 1) ∧
    (activeSeries [(⟨"c", "A", 4⟩ : CommitRow)])[0]? =
      some (some (prefixSumOpt (newcomersSeries [⟨"c", "A", 4⟩]) 1 -
        prefixSumOpt (leavingSeries [⟨"c", "A", 4⟩]) 1)) :=
  ⟨by decide, by decide,
    active_count_prefix_sum [⟨"c", "A", 4⟩] 0 1 1 (by decide) (by decide)⟩

theorem mem_insertSorted (x y : Int) : ∀ l : List Int,
    y ∈ insertSorted x l ↔ y = x ∨ y ∈ l := by
  intro l
  induction l with
  | nil => simp [insertSorted]
  | cons z zs ih =>
    simp only [insertSorted]
    split
    · simp [List.mem_cons]
    · simp only [List.mem_cons, ih]
      tauto

theorem mem_sortInts (l : List Int) (y : Int) : y ∈ sortInts l ↔ y ∈ l := by
  induction l with
  | nil => simp [sortInts]
  | cons x xs ih =>
    show y ∈ insertSorted x (sortInts xs) ↔ y ∈ x :: xs
    rw [mem_insertSorted, List.mem_cons, ih]

theorem commitCountAt_eq (log : List CommitRow) (d : Int) :
    commitCountAt log d = ((bucketedLog log).filter (fun r => r.date == d)).length := by
  unfold commitCountAt agedLog
  rw [List.filter_map, List.length_map]
  rfl

theorem ageSumAt_eq (log : List CommitRow) (d : Int) :
    ageSumAt log d =
      (((bucketedLog log).filter (fun r => r.date == d)).map (ageOf log)).sum := by
  unfold ageSumAt agedLog
  rw [List.filter_map]
  rw [List.map_map]
  rfl

/-- C4: at every bucket present in the aggregate (hence holding at least
one commit, so the count is non-zero), `commit_author_age` is the sum over
the bucket's commits of `(bucketed date − author's earliest bucketed
date) / 365` divided by the number of commits in the bucket — the
commit-count-weighted mean of author ages. -/
theorem commit_author_age_weighted_mean (log : List CommitRow) (d : Int)
    (h : d ∈ dataKeys log) :
    commitCountAt log d ≠ 0 ∧
    commitAuthorAgeAt log d =
      (((bucketedLog log).filter (fun r => r.date == d)).map (fun r =>
        ((r.date - (minD (authorDates log r.author_name)).getD 0 : Int) : ℚ) / 365)).sum /
      ((((bucketedLog log).filter (fun r => r.date == d)).length : ℚ)) := by
  constructor
  · have hm : d ∈ (bucketedLog log).map (fun r => r.date) :=
      List.mem_dedup.mp ((mem_sortInts _ _).mp h)
    obtain ⟨r, hr, hrd⟩ := List.mem_map.mp hm
    rw [commitCountAt_eq]
    have hmem : r ∈ (bucketedLog log).filter (fun r => r.date == d) :=
      List.mem_filter.mpr ⟨hr, by simp [hrd]⟩
    exact Nat.pos_iff_ne_zero.mp (List.length_pos_of_mem hmem)
  · unfold commitAuthorAgeAt
    rw [ageSumAt_eq, commitCountAt_eq]
    rfl

/-- Witness for C4 at a one-commit log. -/
theorem commit_author_age_weighted_mean_witness :
    (1 : Int) ∈ dataKeys [(⟨"c", "A", 4⟩ : CommitRow)] ∧
    (commitCountAt [(⟨"c", "A", 4⟩ : CommitRow)] 1 ≠ 0 ∧
     commitAuthorAgeAt [(⟨"c", "A", 4⟩ : CommitRow)] 1 =
       (((bucketedLog [(⟨"c", "A", 4⟩ : CommitRow)]).filter (fun r => r.date == 1)).map
         (fun r =>
           ((r.date - (minD (authorDates [(⟨"c", "A", 4⟩ : CommitRow)]
             r.author_name)).getD 0 : Int) : ℚ) / 365)).sum /
       ((((bucketedLog [(⟨"c", "A", 4⟩ : CommitRow)]).filter
         (fun r => r.date == 1)).length : ℚ))) :=
  ⟨by decide, commit_author_age_weighted_mean [⟨"c", "A", 4⟩] 1 (by decide)⟩
